import Mathlib

/-!
Verification of the nengo-mpi distributed stepping core, shallowly embedded
from src/mpi_sim (simulator.hpp, mpi_simulator.hpp, mpi_operators.hpp).
The headers under src/ are declarations only; where a claim depends on a
member function body that is absent from src/, the corresponding definition
is modelled from the spec and says so in its doc comment.
-/

namespace NengoMpi

/-! ### Communication operator states (mpi_operators.hpp) -/

/-- State of an MPIWait operator (mpi_operators.hpp, class MPIWait):
a tag (diagnostic only) and the first-call flag.  Its non-owning
back-reference to the request owned by its paired MPISend or MPIRecv is
threaded explicitly through mpiWait_call below. -/
structure MPIWaitSt where
  tag : Int
  first_call : Bool
deriving Repr, DecidableEq

/-- Modelled from the spec: the body of MPIWait::operator() is absent from
src/ (mpi_operators.hpp declares it only).  Per the spec (section 4.4): on
its first-ever invocation it performs no blocking wait (no request yet
exists, since the partner has not yet issued its first transfer) and only
marks itself initialized; on every subsequent invocation it blocks until
the referenced request completes, then clears it.  The request observed
through the back-reference is passed in and returned; the returned Bool
records whether a blocking wait occurred on this invocation. -/
def mpiWait_call {ρ : Type} (w : MPIWaitSt) (req : Option ρ) :
    MPIWaitSt × Option ρ × Bool :=
  if w.first_call then ({ w with first_call := false }, req, false)
  else (w, none, true)

/-- State of an MPISend operator (mpi_operators.hpp, class MPISend):
destination rank, tag, the waiter back-link identity established via
set_waiter at build time, and the outstanding non-blocking send request.
The content buffer lives in the surrounding system state. -/
structure MPISendSt where
  dst : Int
  tag : Int
  waiter : Int
  request : Option Unit
deriving Repr, DecidableEq

/-- State of an MPIRecv operator (mpi_operators.hpp, class MPIRecv):
source rank, tag, waiter back-link identity, outstanding request. -/
structure MPIRecvSt where
  src : Int
  tag : Int
  waiter : Int
  request : Option Unit
deriving Repr, DecidableEq

/-- MPISend::set_waiter: records the identity of the paired MPIWait
(called during build, before the first step). -/
def MPISendSt.set_waiter (op : MPISendSt) (w : Int) : MPISendSt :=
  { op with waiter := w }

/-- MPIRecv::set_waiter: records the identity of the paired MPIWait. -/
def MPIRecvSt.set_waiter (op : MPIRecvSt) (w : Int) : MPIRecvSt :=
  { op with waiter := w }

/-! ### One tag's channel between a sending and a receiving process

Modelled from the spec (sections 4.2 - 4.4 and the INTERLEAVED-mode
comments of mpi_operators.hpp): per tag there is one MPISend on the
sending process, one MPIRecv on the receiving process, and one MPIWait on
each side.  Messages in flight for the tag form a FIFO queue (the
transport is tag-matched and non-overtaking within one tag). -/

structure TagSystem where
  step : Nat
  sendBuf : Int
  recvBuf : Int
  queue : List Int
  sendOp : MPISendSt
  recvOp : MPIRecvSt
  sendWait : MPIWaitSt
  recvWait : MPIWaitSt
  sent : List Int
  observed : List Int
  sendBlocked : List Bool
  recvBlocked : List Bool
deriving Repr, DecidableEq

/-- Modelled from the spec: one step of the sending process in INTERLEAVED
mode (MPISend::operator() body absent from src/).  The paired MPIWait is
called directly before the content vector is updated; the producing
operator then updates the content vector to `produce s.step`; MPISend is
called directly after, issuing a non-blocking transmission of the buffer's
current contents and storing the resulting request where the paired Wait
can observe it. -/
def stepSender (produce : Nat → Int) (s : TagSystem) : TagSystem :=
  let r := mpiWait_call s.sendWait s.sendOp.request
  let v := produce s.step
  { s with
    sendWait := r.1
    sendBlocked := s.sendBlocked ++ [r.2.2]
    sendBuf := v
    sendOp := { s.sendOp with request := some () }
    queue := s.queue ++ [v]
    sent := s.sent ++ [v] }

/-- Modelled from the spec: one step of the receiving process in
INTERLEAVED mode (MPIRecv::operator() body absent from src/).  The paired
MPIWait is called directly before any consumer of the content vector; when
it completes the outstanding irecv, the delivered message (FIFO head for
this tag) is in the buffer; the consumer then reads the buffer, so each
completed Wait contributes exactly one observation; MPIRecv is called
after all consumers and posts the next non-blocking receive. -/
def stepReceiver (s : TagSystem) : TagSystem :=
  let r := mpiWait_call s.recvWait s.recvOp.request
  if r.2.2 then
    let v := s.queue.headD s.recvBuf
    { s with
      recvWait := r.1
      recvBlocked := s.recvBlocked ++ [true]
      recvBuf := v
      queue := s.queue.tail
      observed := s.observed ++ [v]
      recvOp := { s.recvOp with request := some () } }
  else
    { s with
      recvWait := r.1
      recvBlocked := s.recvBlocked ++ [false]
      recvOp := { s.recvOp with request := some () } }

/-- One lockstep step of the two processes for this tag.  Within a step
the two processes run concurrently; only the FIFO queue is shared, and the
receiver's Wait completes the message at the head of the queue, so the
relative order of the two processes within a step does not affect any
observed value.  We take the sender first. -/
def stepSystem (produce : Nat → Int) (s : TagSystem) : TagSystem :=
  let s1 := stepReceiver (stepSender produce s)
  { s1 with step := s.step + 1 }

/-- Modelled from the spec: build-time construction of one tag's channel.
The operators are constructed and the waiter back-references are
established via set_waiter before the first step; both buffers start at 0
and no request is outstanding. -/
def buildSystem (t : Int) : TagSystem :=
  { step := 0
    sendBuf := 0
    recvBuf := 0
    queue := []
    sendOp := MPISendSt.set_waiter { dst := 1, tag := t, waiter := 0, request := none } t
    recvOp := MPIRecvSt.set_waiter { src := 0, tag := t, waiter := 0, request := none } t
    sendWait := { tag := t, first_call := true }
    recvWait := { tag := t, first_call := true }
    sent := []
    observed := []
    sendBlocked := []
    recvBlocked := [] }

/-- Run the channel for `n` lockstep steps from the built state. -/
def run (produce : Nat → Int) (t : Int) : Nat → TagSystem
  | 0 => buildSystem t
  | n + 1 => stepSystem produce (run produce t n)

/-- Complete characterization of the channel state after `n ≥ 1` lockstep
steps: `n` values have been transmitted, the first `n - 1` of them have
been observed in order, exactly one message is in flight, both Waits are
past their first call, both requests are outstanding, the receive buffer
holds the value produced two steps ago, and on each side the Wait blocked
on every invocation except the first. -/
lemma run_state (produce : Nat → Int) (t : Int) :
    ∀ n : Nat, 1 ≤ n →
      (run produce t n).sent = (List.range n).map produce ∧
      (run produce t n).observed = (List.range (n - 1)).map produce ∧
      (run produce t n).queue = [produce (n - 1)] ∧
      (run produce t n).sendWait.first_call = false ∧
      (run produce t n).recvWait.first_call = false ∧
      (run produce t n).sendOp.request = some () ∧
      (run produce t n).recvOp.request = some () ∧
      (run produce t n).recvBuf = (if n = 1 then 0 else produce (n - 2)) ∧
      (run produce t n).sendBlocked = (List.range n).map (fun k => decide (k ≠ 0)) ∧
      (run produce t n).recvBlocked = (List.range n).map (fun k => decide (k ≠ 0)) ∧
      (run produce t n).step = n := by
  intro n hn
  induction n with
  | zero => omega
  | succ m ih =>
    rcases Nat.eq_zero_or_pos m with hm | hm
    · subst hm
      simp [run, stepSystem, stepSender, stepReceiver, buildSystem, mpiWait_call,
        MPISendSt.set_waiter, MPIRecvSt.set_waiter, List.range_succ]
    · obtain ⟨hsent, hobs, hq, hsw, hrw, hsr, hrr, hbuf, hsb, hrb, hstep⟩ := ih hm
      have hm2 : m - 1 + 1 = m := Nat.succ_pred_eq_of_pos hm
      have hne : decide (m ≠ 0) = true := by simp; omega
      constructor
      · show (stepSystem produce (run produce t m)).sent = _
        simp [stepSystem, stepReceiver, stepSender, mpiWait_call, hsw, hrw, hsent, hstep,
          List.range_succ]
      constructor
      · show (stepSystem produce (run produce t m)).observed = _
        simp only [stepSystem, stepReceiver, stepSender, mpiWait_call, hsw, hrw]
        simp [hq, hobs, hstep]
        conv_rhs => rw [← hm2, List.range_succ]
        simp
      constructor
      · show (stepSystem produce (run produce t m)).queue = _
        simp only [stepSystem, stepReceiver, stepSender, mpiWait_call, hsw, hrw]
        simp [hq, hstep]
      constructor
      · show (stepSystem produce (run produce t m)).sendWait.first_call = _
        simp [stepSystem, stepReceiver, stepSender, mpiWait_call, hsw, hrw]
      constructor
      · show (stepSystem produce (run produce t m)).recvWait.first_call = _
        simp [stepSystem, stepReceiver, stepSender, mpiWait_call, hsw, hrw]
      constructor
      · show (stepSystem produce (run produce t m)).sendOp.request = _
        simp [stepSystem, stepReceiver, stepSender, mpiWait_call, hsw, hrw]
      constructor
      · show (stepSystem produce (run produce t m)).recvOp.request = _
        simp [stepSystem, stepReceiver, stepSender, mpiWait_call, hsw, hrw]
      constructor
      · show (stepSystem produce (run produce t m)).recvBuf = _
        simp only [stepSystem, stepReceiver, stepSender, mpiWait_call, hsw, hrw]
        have h2 : m + 1 - 2 = m - 1 := by omega
        have h1 : ¬ (m + 1 = 1) := by omega
        simp [hq, h1, h2]
      constructor
      · show (stepSystem produce (run produce t m)).sendBlocked = _
        simp [stepSystem, stepReceiver, stepSender, mpiWait_call, hsw, hrw, hsb,
          List.range_succ]
        omega
      constructor
      · show (stepSystem produce (run produce t m)).recvBlocked = _
        simp [stepSystem, stepReceiver, stepSender, mpiWait_call, hsw, hrw, hrb,
          List.range_succ]
        omega
      · show (stepSystem produce (run produce t m)).step = _
        simp [stepSystem, stepReceiver, stepSender, mpiWait_call, hsw, hrw, hstep]

/-- Each step of the system preserves the waiter back-references that
set_waiter established at build time. -/
lemma stepSystem_waiter (produce : Nat → Int) (s : TagSystem) :
    (stepSystem produce s).sendOp.waiter = s.sendOp.waiter ∧
    (stepSystem produce s).recvOp.waiter = s.recvOp.waiter := by
  by_cases h1 : s.sendWait.first_call <;> by_cases h2 : s.recvWait.first_call <;>
    simp [stepSystem, stepReceiver, stepSender, mpiWait_call, h1, h2]

/-- The waiter back-references hold their build-time value after any
number of steps. -/
lemma run_waiter_fixed (produce : Nat → Int) (t : Int) (n : Nat) :
    (run produce t n).sendOp.waiter = t ∧ (run produce t n).recvOp.waiter = t := by
  induction n with
  | zero => exact ⟨rfl, rfl⟩
  | succ m ih =>
    have h := stepSystem_waiter produce (run produce t m)
    exact ⟨h.1.trans ih.1, h.2.trans ih.2⟩

/-- C1: for every MPIWait operator, its first-ever invocation performs no
blocking wait (no request yet exists) and only marks the operator
initialized, leaving the referenced request untouched; every subsequent
invocation blocks until the request referenced through its back-reference
completes and then clears that request.  Consequently, in the lockstep
run, each side's Wait blocks on every invocation except the very first. -/
theorem mpiWait_first_call_then_blocks :
    (∀ (ρ : Type) (w : MPIWaitSt) (req : Option ρ),
        w.first_call = true →
          mpiWait_call w req = ({ w with first_call := false }, req, false)) ∧
    (∀ (ρ : Type) (w : MPIWaitSt) (req : Option ρ),
        w.first_call = false →
          mpiWait_call w req = (w, none, true)) ∧
    (∀ (produce : Nat → Int) (t : Int) (n : Nat), 1 ≤ n →
        (run produce t n).sendBlocked = (List.range n).map (fun k => decide (k ≠ 0)) ∧
        (run produce t n).recvBlocked = (List.range n).map (fun k => decide (k ≠ 0))) := by
  refine ⟨?_, ?_, ?_⟩
  · intro ρ w req h
    simp [mpiWait_call, h]
  · intro ρ w req h
    simp [mpiWait_call, h]
  · intro produce t n hn
    obtain ⟨-, -, -, -, -, -, -, -, hsb, hrb, -⟩ := run_state produce t n hn
    exact ⟨hsb, hrb⟩

/-- Witness for C1: concrete Wait invocations and a concrete 2-step run. -/
theorem mpiWait_first_call_then_blocks_witness :
    @mpiWait_call Unit ⟨7, true⟩ (some ()) = (⟨7, false⟩, some (), false) ∧
    @mpiWait_call Unit ⟨7, false⟩ (some ()) = (⟨7, false⟩, none, true) ∧
    (run (fun k => (k : Int)) 7 2).sendBlocked = [false, true] ∧
    (run (fun k => (k : Int)) 7 2).recvBlocked = [false, true] := by
  refine ⟨mpiWait_first_call_then_blocks.1 Unit ⟨7, true⟩ (some ()) rfl,
    mpiWait_first_call_then_blocks.2.1 Unit ⟨7, false⟩ (some ()) rfl, ?_, ?_⟩
  · have h := (mpiWait_first_call_then_blocks.2.2 (fun k => (k : Int)) 7 2 (by decide)).1
    rw [h]
    decide
  · have h := (mpiWait_first_call_then_blocks.2.2 (fun k => (k : Int)) 7 2 (by decide)).2
    rw [h]
    decide

/-- C2: over an N-step run (N ≥ 1), the sequence of values observed by the
receiving process for a tag across completed Wait invocations equals, in
order, the sequence the paired Send transmitted for that tag: it is
exactly the first N - 1 of the N transmitted values (the last transmission
is still in flight at the end of the run), so no value is dropped and no
reordering occurs within one tag. -/
theorem send_recv_fifo_per_tag (produce : Nat → Int) (t : Int) (N : Nat)
    (h : 1 ≤ N) :
    (run produce t N).sent = (List.range N).map produce ∧
    (run produce t N).sent.length = N ∧
    (run produce t N).observed = (run produce t N).sent.take (N - 1) := by
  obtain ⟨hsent, hobs, -, -, -, -, -, -, -, -, -⟩ := run_state produce t N h
  refine ⟨hsent, by simp [hsent], ?_⟩
  rw [hobs, hsent, ← List.map_take, List.take_range, min_eq_left (by omega)]

/-- Witness for C2: a concrete 3-step run of a concrete value stream. -/
theorem send_recv_fifo_per_tag_witness :
    (run (fun k => (k : Int) * 10) 3 3).sent = [0, 10, 20] ∧
    (run (fun k => (k : Int) * 10) 3 3).observed = [0, 10] := by
  have h := send_recv_fifo_per_tag (fun k => (k : Int) * 10) 3 3 (by decide)
  refine ⟨?_, ?_⟩
  · rw [h.1]
    decide
  · rw [h.2.2, h.1]
    decide

/-- C3: one-step pipeline latency in the Scenario A run (process 0 sets
buffer X to the current step index and sends it with tag 7 each step;
process 1 receives into X with tag 7 and waits on tag 7 before its
consumer reads X): after every step k with k ≥ 1 (steps numbered from 0;
steps 0 through k have run), the observation the consumer made during
step k is k - 1, and process 1's buffer X holds k - 1: data sent at step
i is ready at the receiver only from step i + 1 onward. -/
theorem pipeline_one_step_latency (k : Nat) (h : 1 ≤ k) :
    (run (fun i => (i : Int)) 7 (k + 1)).observed.getLast? = some ((k : Int) - 1) ∧
    (run (fun i => (i : Int)) 7 (k + 1)).recvBuf = (k : Int) - 1 := by
  obtain ⟨-, hobs, -, -, -, -, -, hbuf, -, -, -⟩ :=
    run_state (fun i => (i : Int)) 7 (k + 1) (by omega)
  constructor
  · rw [hobs]
    have hk : k + 1 - 1 = (k - 1) + 1 := by omega
    rw [hk, List.range_succ, List.map_append]
    simp
    omega
  · rw [hbuf, if_neg (by omega)]
    have hk : k + 1 - 2 = k - 1 := by omega
    rw [hk]
    omega

/-- Witness for C3: after step 4 of the concrete scenario the consumer
observed 3 and the receive buffer holds 3. -/
theorem pipeline_one_step_latency_witness :
    (run (fun i => (i : Int)) 7 5).observed.getLast? = some 3 ∧
    (run (fun i => (i : Int)) 7 5).recvBuf = 3 :=
  pipeline_one_step_latency 4 (by decide)

/-- C7: a Wait never creates or owns the request it completes: each
invocation either leaves the referenced request unchanged (first call) or
clears it, never fabricates a request where none exists, and never
replaces it by a different one; and the waiter back-references, set via
set_waiter at build time before the first step, are fixed: after any
number of steps they still hold the build-time pairing. -/
theorem wait_never_owns_request :
    (∀ (ρ : Type) (w : MPIWaitSt) (req : Option ρ),
        (mpiWait_call w req).2.1 = req ∨ (mpiWait_call w req).2.1 = none) ∧
    (∀ (ρ : Type) (w : MPIWaitSt),
        (mpiWait_call w (none : Option ρ)).2.1 = none) ∧
    (∀ (produce : Nat → Int) (t : Int) (n : Nat),
        (run produce t n).sendOp.waiter = (buildSystem t).sendOp.waiter ∧
        (run produce t n).recvOp.waiter = (buildSystem t).recvOp.waiter ∧
        (buildSystem t).sendOp.waiter = t ∧
        (buildSystem t).recvOp.waiter = t) := by
  refine ⟨?_, ?_, ?_⟩
  · intro ρ w req
    by_cases h : w.first_call <;> simp [mpiWait_call, h]
  · intro ρ w
    by_cases h : w.first_call <;> simp [mpiWait_call, h]
  · intro produce t n
    have h := run_waiter_fixed produce t n
    exact ⟨h.1, h.2, rfl, rfl⟩

/-! ### Simulator lifecycle (simulator.hpp, mpi_simulator.hpp)

simulator.hpp and mpi_simulator.hpp declare the Simulator interface only;
the bodies of run_n_steps, finalize_build and close are absent from src/,
so the step loop below is modelled from the spec (sections 4.5, 4.6, 6
and 7). -/

/-- Errors of the simulator API (spec section 7). -/
inductive SimError
  | PreconditionViolation
  | BuildError
  | CommunicationFailure
  | OperatorFailure (step : Nat) (op : Nat) (msg : String)
deriving Repr, DecidableEq

/-- `idxList i n` is the list of `n` consecutive indices starting at `i`. -/
def idxList : Nat → Nat → List Nat
  | _, 0 => []
  | i, n + 1 => i :: idxList (i + 1) n

/-- The invocation records of one full step at global step index `st` of a
partition with `len` registered operators: operator 0 through `len - 1`,
each exactly once, in registered order. -/
def stepTrace (st len : Nat) : List (Nat × Nat) :=
  (idxList 0 len).map (fun i => (st, i))

/-- The invocation records of `n` full steps starting at global step index
`st`, in lockstep order. -/
def fullTrace (len : Nat) : Nat → Nat → List (Nat × Nat)
  | _, 0 => []
  | st, n + 1 => stepTrace st len ++ fullTrace len (st + 1) n

/-- A partition (chunk): the ordered operator sequence registered for one
process at build time, the signal state the operators act on, and the
number of steps advanced so far.  chunk.hpp is absent from src/; modelled
from the spec (sections 3 and 4.5).  An operator is a function from signal
state to signal state that may fail. -/
structure Chunk (σ : Type) where
  ops : List (σ → Except String σ)
  sigs : σ
  n_steps : Nat

/-- Modelled from the spec: advance one partition step over a suffix of
the operator sequence, invoking each operator once in registered order,
starting at operator index `i`; returns the indices invoked, in order, and
either the resulting signal state or the first failure (operator index and
message).  A failing operator aborts the step immediately: no later
operator is invoked and none is retried. -/
def run_ops {σ : Type} : List (σ → Except String σ) → σ → Nat →
    List Nat × Except (Nat × String) σ
  | [], s, _ => ([], Except.ok s)
  | f :: rest, s, i =>
    match f s with
    | Except.error e => ([i], Except.error (i, e))
    | Except.ok s2 =>
      let r := run_ops rest s2 (i + 1)
      (i :: r.1, r.2)

/-- Modelled from the spec: advance a partition by `n` steps, each step
invoking every registered operator exactly once in registered order;
returns the invocation trace as (global step index, operator index) pairs
and either the advanced partition or the first failure (global step index,
operator index, message), aborting the run at the first failing operator
with no partial-step recovery or retry. -/
def run_chunk_n {σ : Type} : Nat → Chunk σ →
    List (Nat × Nat) × Except (Nat × Nat × String) (Chunk σ)
  | 0, c => ([], Except.ok c)
  | n + 1, c =>
    let r := run_ops c.ops c.sigs 0
    let tagged := r.1.map (fun i => (c.n_steps, i))
    match r.2 with
    | Except.error je => (tagged, Except.error (c.n_steps, je.1, je.2))
    | Except.ok s2 =>
      let rest := run_chunk_n n { ops := c.ops, sigs := s2, n_steps := c.n_steps + 1 }
      (tagged ++ rest.1, rest.2)

/-- Simulator state (simulator.hpp: members dt, chunk, collect_timings;
lifecycle flags modelled from the spec, sections 4.6 and 6). -/
structure SimState (σ : Type) where
  dt : Int
  chunk : Chunk σ
  finalized : Bool
  closed : Bool
  collect_timings : Bool

/-- Modelled from the spec: Simulator::finalize_build freezes structure;
it must precede any stepping. -/
def finalize_build {σ : Type} (s : SimState σ) : SimState σ :=
  { s with finalized := true }

/-- Modelled from the spec: Simulator::run_n_steps (body absent from
src/).  Stepping before finalize_build is a PreconditionViolation
reported before any partition work.  Otherwise the local partition is
advanced by `steps` steps; the result carries the operator invocation
trace, the timing side file output (its path and the number of per-step
entries, present exactly when log_filename is non-empty), and either the
advanced simulator or the error that aborted the run. -/
def run_n_steps {σ : Type} (steps : Nat) (progress : Bool)
    (log_filename : String) (s : SimState σ) :
    List (Nat × Nat) × Option (String × Nat) × Except SimError (SimState σ) :=
  if s.finalized = false then ([], none, Except.error SimError.PreconditionViolation)
  else
    let r := run_chunk_n steps s.chunk
    match r.2 with
    | Except.error kje =>
      (r.1,
       (if log_filename = "" then none
        else some (log_filename, kje.1 - s.chunk.n_steps)),
       Except.error (SimError.OperatorFailure kje.1 kje.2.1 kje.2.2))
    | Except.ok c2 =>
      (r.1,
       (if log_filename = "" then none else some (log_filename, steps)),
       Except.ok { s with chunk := c2 })

/-- Modelled from the spec: Simulator::close releases run-scoped state and
is idempotent.  The returned list records the resources released by this
call; a simulator that is already closed is left untouched and nothing is
released again. -/
def close {σ : Type} (s : SimState σ) : SimState σ × List String :=
  if s.closed then (s, [])
  else ({ s with closed := true }, ["run-scoped state"])

lemma idxList_succ (i n : Nat) : idxList i (n + 1) = i :: idxList (i + 1) n := rfl

/-- When every operator succeeds on every state, one step invokes the
whole operator sequence in order and produces a final state. -/
lemma run_ops_ok_all {σ : Type} (ops : List (σ → Except String σ))
    (hok : ∀ f ∈ ops, ∀ x, ∃ y, f x = Except.ok y) :
    ∀ (s : σ) (i : Nat), ∃ s2, run_ops ops s i = (idxList i ops.length, Except.ok s2) := by
  induction ops with
  | nil =>
    intro s i
    exact ⟨s, rfl⟩
  | cons f rest ih =>
    intro s i
    obtain ⟨y, hy⟩ := hok f (List.mem_cons_self f rest) s
    obtain ⟨s2, h2⟩ := ih (fun g hg x => hok g (List.mem_cons_of_mem f hg) x) y (i + 1)
    refine ⟨s2, ?_⟩
    simp [run_ops, hy, h2, idxList]

/-- A successful step invoked exactly the registered operator sequence, in
order, each operator once. -/
lemma run_ops_ok_trace {σ : Type} :
    ∀ (ops : List (σ → Except String σ)) (s : σ) (i : Nat) (s2 : σ),
      (run_ops ops s i).2 = Except.ok s2 →
      (run_ops ops s i).1 = idxList i ops.length := by
  intro ops
  induction ops with
  | nil =>
    intro s i s2 h
    rfl
  | cons f rest ih =>
    intro s i s2 h
    cases hf : f s with
    | error e2 =>
      simp [run_ops, hf] at h
    | ok s3 =>
      simp only [run_ops, hf] at h ⊢
      simp [idxList, ih s3 (i + 1) s2 h]

/-- A failing step invoked exactly the operators up to and including the
failing one, in order, each once: the step aborted at the failure with no
retry and no further invocation. -/
lemma run_ops_error_trace {σ : Type} :
    ∀ (ops : List (σ → Except String σ)) (s : σ) (i j : Nat) (e : String),
      (run_ops ops s i).2 = Except.error (j, e) →
      i ≤ j ∧ j < i + ops.length ∧ (run_ops ops s i).1 = idxList i (j + 1 - i) := by
  intro ops
  induction ops with
  | nil =>
    intro s i j e h
    simp [run_ops] at h
  | cons f rest ih =>
    intro s i j e h
    cases hf : f s with
    | error e2 =>
      simp only [run_ops, hf] at h ⊢
      simp at h
      obtain ⟨hj, -⟩ := h
      subst hj
      refine ⟨Nat.le_refl i, by simp, ?_⟩
      simp [idxList]
    | ok s3 =>
      simp only [run_ops, hf] at h ⊢
      obtain ⟨h1, h2, h3⟩ := ih s3 (i + 1) j e h
      refine ⟨by omega, by simp; omega, ?_⟩
      rw [h3]
      have hs : j + 1 - i = (j + 1 - (i + 1)) + 1 := by omega
      rw [hs, idxList_succ]

/-- When every operator succeeds on every state, `n` steps advance the
partition by exactly `n`, leave the registered sequence unchanged, and
the invocation trace is `n` full steps in lockstep order. -/
lemma run_chunk_ok {σ : Type} :
    ∀ (n : Nat) (c : Chunk σ),
      (∀ f ∈ c.ops, ∀ x, ∃ y, f x = Except.ok y) →
      ∃ c2, run_chunk_n n c = (fullTrace c.ops.length c.n_steps n, Except.ok c2) ∧
        c2.n_steps = c.n_steps + n ∧ c2.ops = c.ops := by
  intro n
  induction n with
  | zero =>
    intro c hok
    exact ⟨c, rfl, rfl, rfl⟩
  | succ m ih =>
    intro c hok
    obtain ⟨s2, hs2⟩ := run_ops_ok_all c.ops hok c.sigs 0
    obtain ⟨c2, hc2, hn, hops⟩ :=
      ih { ops := c.ops, sigs := s2, n_steps := c.n_steps + 1 } hok
    dsimp only at hn
    refine ⟨c2, ?_, by omega, hops⟩
    simp only [run_chunk_n, hs2, hc2, fullTrace, stepTrace]

/-- A failing run aborted at the first failing operator: the trace is the
full steps before the failing one followed by the failing step's in-order
invocations up to and including the failing operator, and nothing else
was invoked: no partial-step recovery and no retry. -/
lemma run_chunk_error {σ : Type} :
    ∀ (n : Nat) (c : Chunk σ) (k j : Nat) (e : String),
      (run_chunk_n n c).2 = Except.error (k, j, e) →
      c.n_steps ≤ k ∧ k < c.n_steps + n ∧ j < c.ops.length ∧
      (run_chunk_n n c).1 =
        fullTrace c.ops.length c.n_steps (k - c.n_steps)
          ++ (idxList 0 (j + 1)).map (fun i => (k, i)) := by
  intro n
  induction n with
  | zero =>
    intro c k j e h
    simp [run_chunk_n] at h
  | succ m ih =>
    intro c k j e h
    cases hr : (run_ops c.ops c.sigs 0).2 with
    | error je =>
      obtain ⟨j0, e0⟩ := je
      obtain ⟨-, hb, ht⟩ := run_ops_error_trace c.ops c.sigs 0 j0 e0 hr
      simp only [run_chunk_n, hr] at h ⊢
      simp at h
      obtain ⟨hk, hj, -⟩ := h
      subst hk
      subst hj
      refine ⟨Nat.le_refl _, by omega, by omega, ?_⟩
      simp [ht, fullTrace]
    | ok s2 =>
      simp only [run_chunk_n, hr] at h ⊢
      obtain ⟨h1, h2, h3, h4⟩ := ih { ops := c.ops, sigs := s2, n_steps := c.n_steps + 1 } k j e h
      dsimp only at h1 h2 h3 h4
      refine ⟨by omega, by omega, h3, ?_⟩
      rw [run_ops_ok_trace c.ops c.sigs 0 s2 hr, h4]
      have hs : k - c.n_steps = (k - (c.n_steps + 1)) + 1 := by omega
      rw [hs, fullTrace, stepTrace, List.append_assoc]

/-- C4: calling run_n_steps before finalize_build fails with
PreconditionViolation and advances no partition: the invocation trace is
empty (no operator is invoked), no timing output is produced, and no
advanced simulator state is returned. -/
theorem run_before_finalize_fails (σ : Type) (s : SimState σ) (steps : Nat)
    (p : Bool) (log : String) (h : s.finalized = false) :
    run_n_steps steps p log s =
      ([], none, Except.error SimError.PreconditionViolation) := by
  simp [run_n_steps, h]

/-- Witness for C4: a concrete unfinalized simulator. -/
theorem run_before_finalize_fails_witness :
    run_n_steps 5 true "timings.log"
        (⟨0, ⟨[fun x => Except.ok (x + 1)], (0 : Int), 0⟩, false, false, false⟩ : SimState Int) =
      ([], none, Except.error SimError.PreconditionViolation) :=
  run_before_finalize_fails Int
    ⟨0, ⟨[fun x => Except.ok (x + 1)], (0 : Int), 0⟩, false, false, false⟩
    5 true "timings.log" rfl

/-- C5: for a finalized simulator and step_count > 0, run_n_steps advances
the local partition by exactly step_count steps, and each step invokes
every registered operator exactly once in the build-time order, each
operator (the communication operators included) at its exact registered
position; if any operator fails, the whole run aborts immediately at that
operator: the trace ends there, with no partial-step recovery and no
retry. -/
theorem run_n_steps_advances_lockstep (σ : Type) (s : SimState σ)
    (steps : Nat) (p : Bool) (log : String)
    (h : s.finalized = true) (hs : 0 < steps) :
    ((∀ f ∈ s.chunk.ops, ∀ x, ∃ y, f x = Except.ok y) →
      ∃ c2, run_n_steps steps p log s =
          (fullTrace s.chunk.ops.length s.chunk.n_steps steps,
           (if log = "" then none else some (log, steps)),
           Except.ok { s with chunk := c2 }) ∧
        c2.n_steps = s.chunk.n_steps + steps ∧ c2.ops = s.chunk.ops) ∧
    (∀ k j e, (run_n_steps steps p log s).2.2 =
        Except.error (SimError.OperatorFailure k j e) →
      s.chunk.n_steps ≤ k ∧ k < s.chunk.n_steps + steps ∧ j < s.chunk.ops.length ∧
      (run_n_steps steps p log s).1 =
        fullTrace s.chunk.ops.length s.chunk.n_steps (k - s.chunk.n_steps)
          ++ (idxList 0 (j + 1)).map (fun i => (k, i))) := by
  constructor
  · intro hok
    obtain ⟨c2, hc2, hn, hops⟩ := run_chunk_ok steps s.chunk hok
    refine ⟨c2, ?_, hn, hops⟩
    simp [run_n_steps, h, hc2]
  · intro k j e he
    cases hr : (run_chunk_n steps s.chunk).2 with
    | ok c2 =>
      simp [run_n_steps, h, hr] at he
    | error kje =>
      obtain ⟨k0, j0, e0⟩ := kje
      have hre := run_chunk_error steps s.chunk k0 j0 e0 hr
      simp only [run_n_steps, h] at he ⊢
      simp [hr] at he ⊢
      obtain ⟨hk, hj, -⟩ := he
      subst hk
      subst hj
      exact hre

/-- A concrete two-operator finalized simulator used by witnesses. -/
def simC5 : SimState Int :=
  { dt := 0
    chunk :=
      { ops := [fun x => Except.ok (x + 1), fun x => Except.ok (x * 2)]
        sigs := 0
        n_steps := 0 }
    finalized := true
    closed := false
    collect_timings := false }

/-- Every operator of the concrete simulator succeeds on every state. -/
lemma simC5_ops_ok : ∀ f ∈ simC5.chunk.ops, ∀ x, ∃ y, f x = Except.ok y := by
  intro f hf x
  simp [simC5] at hf
  rcases hf with hf | hf <;> subst hf <;> exact ⟨_, rfl⟩

/-- Witness for C5: the success clause at a concrete simulator. -/
theorem run_n_steps_advances_lockstep_witness :
    ∃ c2, run_n_steps 2 true "t.log" simC5 =
        (fullTrace simC5.chunk.ops.length simC5.chunk.n_steps 2,
         (if "t.log" = "" then none else some ("t.log", 2)),
         Except.ok { simC5 with chunk := c2 }) ∧
      c2.n_steps = simC5.chunk.n_steps + 2 ∧ c2.ops = simC5.chunk.ops :=
  (run_n_steps_advances_lockstep Int simC5 2 true "t.log" rfl (by decide)).1
    simC5_ops_ok

/-- C6: close is idempotent: a second close returns the state of the first
call unchanged, produces no error, and releases nothing, so no resource is
released twice (the combined release events of the two calls are exactly
those of the first call). -/
theorem close_idempotent (σ : Type) (s : SimState σ) :
    close (close s).1 = ((close s).1, []) ∧
    (close s).2 ++ (close (close s).1).2 = (close s).2 := by
  by_cases h : s.closed <;> simp [close, h]

/-- C9: run_n_steps with a non-empty timing_log_path produces the per-step
timing side file output (the given path with one entry per step), and an
empty timing_log_path disables timing output entirely, on every path
through run_n_steps. -/
theorem timing_log_path_controls_timing (σ : Type) (s : SimState σ)
    (steps : Nat) (p : Bool) (log : String) :
    (log = "" → (run_n_steps steps p log s).2.1 = none) ∧
    (log ≠ "" → s.finalized = true →
      (∀ f ∈ s.chunk.ops, ∀ x, ∃ y, f x = Except.ok y) →
      (run_n_steps steps p log s).2.1 = some (log, steps)) := by
  constructor
  · intro hl
    by_cases h : s.finalized = false
    · simp [run_n_steps, h, hl]
    · cases hr : (run_chunk_n steps s.chunk).2 with
      | ok c2 => simp [run_n_steps, h, hr, hl]
      | error kje => simp [run_n_steps, h, hr, hl]
  · intro hl hf hok
    obtain ⟨c2, hc2, -, -⟩ := run_chunk_ok steps s.chunk hok
    simp [run_n_steps, hf, hc2, hl]

/-- Witness for C9: the two path cases at a concrete simulator. -/
theorem timing_log_path_controls_timing_witness :
    (run_n_steps 2 false "" simC5).2.1 = none ∧
    (run_n_steps 2 false "t.log" simC5).2.1 = some ("t.log", 2) := by
  constructor
  · exact (timing_log_path_controls_timing Int simC5 2 false "").1 rfl
  · exact (timing_log_path_controls_timing Int simC5 2 false "t.log").2
      (by decide) rfl simC5_ops_ok

/-! ### Serialization of the communication operators (mpi_operators.hpp)

The serialize member templates are present in src/mpi_sim/mpi_operators.hpp
(they are defined inline in the header); the definitions below transcribe
exactly which members each one archives, in archive order. -/

/-- One field written to a boost serialization archive. -/
inductive ArchiveField
  | baseOperator
  | intField (name : String) (v : Int)
  | ptrField (name : String) (p : Nat)
deriving Repr, DecidableEq

/-- In-memory state of MPISend (mpi_operators.hpp lines 32-59): members
dst, tag, content (a Vector pointer), waiter (an MPIWait pointer) and
request (the live mpi request handle, modelled as an optional in-flight
handle identity). -/
structure MPISendMem where
  dst : Int
  tag : Int
  content : Nat
  waiter : Nat
  request : Option Nat
deriving Repr, DecidableEq

/-- In-memory state of MPIRecv (mpi_operators.hpp lines 65-92): members
src, tag, content, waiter and request. -/
structure MPIRecvMem where
  src : Int
  tag : Int
  content : Nat
  waiter : Nat
  request : Option Nat
deriving Repr, DecidableEq

/-- In-memory state of MPIWait (mpi_operators.hpp lines 95-119): members
tag, first_call and request (a pointer to the request owned by the paired
MPISend or MPIRecv, null until set). -/
structure MPIWaitMem where
  tag : Int
  first_call : Bool
  request : Option Nat
deriving Repr, DecidableEq

/-- MPISend::serialize (mpi_operators.hpp lines 51-58): archives the base
Operator subobject, then dst, tag, content and waiter, in that order.  The
request member does not appear in the body. -/
def MPISendMem.serialize (op : MPISendMem) : List ArchiveField :=
  [ArchiveField.baseOperator,
   ArchiveField.intField "dst" op.dst,
   ArchiveField.intField "tag" op.tag,
   ArchiveField.ptrField "content" op.content,
   ArchiveField.ptrField "waiter" op.waiter]

/-- MPIRecv::serialize (mpi_operators.hpp lines 84-91): archives the base
Operator subobject, then src, tag, content and waiter, in that order.  The
request member does not appear in the body. -/
def MPIRecvMem.serialize (op : MPIRecvMem) : List ArchiveField :=
  [ArchiveField.baseOperator,
   ArchiveField.intField "src" op.src,
   ArchiveField.intField "tag" op.tag,
   ArchiveField.ptrField "content" op.content,
   ArchiveField.ptrField "waiter" op.waiter]

/-- MPIWait::serialize (mpi_operators.hpp lines 115-118): archives only
the base Operator subobject; neither first_call nor the request
back-reference appears in the body. -/
def MPIWaitMem.serialize (w : MPIWaitMem) : List ArchiveField :=
  [ArchiveField.baseOperator]

/-- C8: serialization carries only the build-time description, never live
request state: MPISend::serialize and MPIRecv::serialize archive the peer
rank, the tag, the content reference and the waiter reference (plus the
base Operator subobject), and their output is independent of the live
request member; MPIWait::serialize archives only the base Operator state,
so its output is independent of both its request back-reference and its
first_call flag, and the back-reference must be reconstructed fresh in
each process after distribution. -/
theorem serialize_carries_no_request_state :
    (∀ op : MPISendMem,
        ArchiveField.baseOperator ∈ op.serialize ∧
        ArchiveField.intField "dst" op.dst ∈ op.serialize ∧
        ArchiveField.intField "tag" op.tag ∈ op.serialize ∧
        ArchiveField.ptrField "content" op.content ∈ op.serialize ∧
        ArchiveField.ptrField "waiter" op.waiter ∈ op.serialize ∧
        ∀ r, MPISendMem.serialize { op with request := r } = op.serialize) ∧
    (∀ op : MPIRecvMem,
        ArchiveField.baseOperator ∈ op.serialize ∧
        ArchiveField.intField "src" op.src ∈ op.serialize ∧
        ArchiveField.intField "tag" op.tag ∈ op.serialize ∧
        ArchiveField.ptrField "content" op.content ∈ op.serialize ∧
        ArchiveField.ptrField "waiter" op.waiter ∈ op.serialize ∧
        ∀ r, MPIRecvMem.serialize { op with request := r } = op.serialize) ∧
    (∀ w : MPIWaitMem,
        w.serialize = [ArchiveField.baseOperator] ∧
        ∀ r fc, MPIWaitMem.serialize { w with request := r, first_call := fc }
          = w.serialize) := by
  refine ⟨?_, ?_, ?_⟩
  · intro op
    refine ⟨?_, ?_, ?_, ?_, ?_, fun r => rfl⟩ <;> simp [MPISendMem.serialize]
  · intro op
    refine ⟨?_, ?_, ?_, ?_, ?_, fun r => rfl⟩ <;> simp [MPIRecvMem.serialize]
  · intro w
    exact ⟨rfl, fun r fc => rfl⟩

/-! ### Simulator::get_time_pointer (simulator.hpp lines 50-52)

This accessor is defined inline in the header, so its body is in src/:
it returns chunk->get_time_pointer() with no null check on chunk. -/

/-- The part of MpiSimulatorChunk that get_time_pointer touches: the
address of the time signal (chunk.hpp is absent from src/; only the
pointer identity matters here). -/
structure MpiSimulatorChunkMem where
  time_ptr : Nat
deriving Repr, DecidableEq

/-- MpiSimulatorChunk::get_time_pointer: the address of the time signal. -/
def MpiSimulatorChunkMem.get_time_pointer (c : MpiSimulatorChunkMem) : Nat :=
  c.time_ptr

/-- Memory-level Simulator state (simulator.hpp lines 54-58): the chunk
member is a unique pointer, null until from_file or local construction
populates it. -/
structure SimulatorMem where
  dt : Int
  chunk : Option MpiSimulatorChunkMem
  collect_timings : Bool
deriving Repr, DecidableEq

/-- Simulator::get_time_pointer, transcribed from simulator.hpp lines
50-52: return chunk->get_time_pointer().  There is no null check and no
error path: dereferencing a null chunk is undefined behavior, modelled as
the absent value. -/
def SimulatorMem.get_time_pointer (s : SimulatorMem) : Option Nat :=
  s.chunk.map MpiSimulatorChunkMem.get_time_pointer

/-- C10: get_time_pointer unconditionally dereferences the chunk member:
it is well-defined exactly when a partition has been constructed (chunk
non-null), in which case it returns the chunk's time pointer; on a
simulator whose chunk has not been populated the call dereferences the
null chunk and no error is reported (the result is determined by chunk
alone; the function consults nothing else and has no error value). -/
theorem get_time_pointer_unchecked (s : SimulatorMem) :
    (∀ c, s.chunk = some c → s.get_time_pointer = some c.get_time_pointer) ∧
    (s.chunk = none → s.get_time_pointer = none) ∧
    (∀ t : SimulatorMem, s.chunk = t.chunk →
      s.get_time_pointer = t.get_time_pointer) := by
  refine ⟨?_, ?_, ?_⟩
  · intro c hc
    simp [SimulatorMem.get_time_pointer, hc]
  · intro hc
    simp [SimulatorMem.get_time_pointer, hc]
  · intro t ht
    simp [SimulatorMem.get_time_pointer, ht]

/-- Witness for C10: a populated and an unpopulated concrete simulator. -/
theorem get_time_pointer_unchecked_witness :
    SimulatorMem.get_time_pointer ⟨0, none, false⟩ = none ∧
    SimulatorMem.get_time_pointer ⟨0, some ⟨42⟩, false⟩ = some 42 :=
  ⟨(get_time_pointer_unchecked ⟨0, none, false⟩).2.1 rfl,
   (get_time_pointer_unchecked ⟨0, some ⟨42⟩, false⟩).1 ⟨42⟩ rfl⟩

end NengoMpi
